import Mathlib

/-!
Shallow embedding of the producer-consumer pipeline of `assignment-1`
(`shared_buff.py`, `container.py`, `producer.py`, `consumer.py`).

Python values flowing through the pipeline are modelled as `Option T`:
`Option.none` is the Python value `None` (used by the code both as the
source-exhaustion signal and as the shutdown sentinel / poison pill), and
`some x` is an ordinary payload of type `T`.
-/

/-- Embedding of `SharedBuffer` (`shared_buff.py`): a deque of raw values
plus the `max_size` field set in `__init__`.  Python integers are modelled
as `Int` (the constructor performs no validation, so `max_size` may be any
integer). -/
structure SharedBuffer (T : Type) where
  max_size : Int
  buffer : List (Option T)
deriving DecidableEq, Repr

/-- Embedding of `SharedBuffer.__init__` (`shared_buff.py` lines 29-38).
The body is `self.max_size = max_size; self.buffer = deque()`: it stores the
capacity as given and creates an empty deque.  It has no `raise` path, so
the fallible-constructor embedding always returns `Except.ok`. -/
def SharedBuffer.new (T : Type) (max_size : Int) : Except String (SharedBuffer T) :=
  Except.ok { max_size := max_size, buffer := [] }

/-- The condition under which `SharedBuffer.put` stops waiting: the wait
loop is `while len(self.buffer) >= self.max_size: wait()`, so a `put` can
complete exactly when `len(buffer) < max_size`. -/
def SharedBuffer.canPut (b : SharedBuffer T) : Prop :=
  (b.buffer.length : Int) < b.max_size

instance (b : SharedBuffer T) : Decidable b.canPut := by
  unfold SharedBuffer.canPut; infer_instance

/-- Embedding of the effect of a completed `SharedBuffer.put` (lines 40-59):
after the wait loop exits, `self.buffer.append(item)` adds the item at the
tail.  The blocking precondition is `SharedBuffer.canPut`. -/
def SharedBuffer.put (b : SharedBuffer T) (item : Option T) : SharedBuffer T :=
  { b with buffer := b.buffer ++ [item] }

/-- Embedding of `SharedBuffer.get` (lines 61-82): the wait loop is
`while len(self.buffer) == 0: wait()`, then `item = self.buffer.popleft()`
removes and returns the head.  `Option.none` as the outer result models the
call never completing (blocked on an empty buffer). -/
def SharedBuffer.get (b : SharedBuffer T) : Option (Option T × SharedBuffer T) :=
  match b.buffer with
  | [] => none
  | x :: rest => some (x, { b with buffer := rest })

/-- Embedding of `SharedBuffer.snapshot` (lines 84-86): `return
list(self.buffer)` copies the deque; the pair records the returned list and
the buffer state after the call. -/
def SharedBuffer.snapshot (b : SharedBuffer T) : List (Option T) × SharedBuffer T :=
  (b.buffer, b)

/-- Embedding of `SharedBuffer.__len__` (lines 88-90): `return
len(self.buffer)`; the pair records the returned length and the buffer
state after the call. -/
def SharedBuffer.len (b : SharedBuffer T) : Nat × SharedBuffer T :=
  (b.buffer.length, b)

/-- The capacity invariant of the spec: `0 ≤ length ≤ capacity`. -/
def SharedBuffer.lenInv (b : SharedBuffer T) : Prop :=
  0 ≤ (b.buffer.length : Int) ∧ (b.buffer.length : Int) ≤ b.max_size

/-- Embedding of `SourceContainer` (`container.py`): a deque of raw items
(any Python values, including `None`). -/
structure SourceContainer (T : Type) where
  items : List (Option T)
deriving DecidableEq, Repr

/-- Embedding of `SourceContainer.read_next` (`container.py` lines 36-45):
`if not self.items: return None` else `return self.items.popleft()`.
Returns the raw value read together with the updated container. -/
def SourceContainer.read_next (s : SourceContainer T) : Option T × SourceContainer T :=
  match s.items with
  | [] => (none, s)
  | x :: rest => (x, { items := rest })

/-- Embedding of `DestinationContainer` (`container.py`): a list of stored
raw values. -/
structure DestinationContainer (T : Type) where
  items : List (Option T)
deriving DecidableEq, Repr

/-- Embedding of `DestinationContainer.store` (`container.py` lines 59-66):
`self.items.append(item)`. -/
def DestinationContainer.store (d : DestinationContainer T) (item : Option T) :
    DestinationContainer T :=
  { items := d.items ++ [item] }

/-- The sequence of values `Producer.run` (`producer.py` lines 15-41) passes
to `buffer.put`, as a function of the raw contents of its source, on the
fault-free path: it reads values one at a time; on reading `None` (either
the exhaustion signal of an empty source or a literal `None` payload, which
the code cannot distinguish) it puts `None` once and breaks; otherwise it
puts the value and continues. -/
def producerEmits : List (Option T) → List (Option T)
  | [] => [none]
  | none :: _ => [none]
  | some x :: rest => some x :: producerEmits rest

/-- The sequence of values `Consumer.run` (`consumer.py` lines 15-28) passes
to `destination.store`, as a function of the stream of values its
`buffer.get` calls return: on `None` (the poison pill) it breaks without
storing; otherwise it stores the value and continues. -/
def consumerStores : List (Option T) → List (Option T)
  | [] => []
  | none :: _ => []
  | some x :: rest => some x :: consumerStores rest

/-- Control state of the producer thread inside `Producer.run`: `run` is
about to call `self.source.read_next()`, `hold v` has read the raw value
`v` and is about to test it against `None` and call `buffer.put`, `done`
has left the loop. -/
inductive PState (T : Type) where
  | run
  | hold (v : Option T)
  | done
deriving DecidableEq, Repr

/-- Control state of the consumer thread inside `Consumer.run`: `run` is
about to call `buffer.get()`, `done` has left the loop. -/
inductive CState where
  | run
  | done
deriving DecidableEq, Repr

/-- Global state of the one-producer / one-consumer system assembled in
`main.py`: the shared `SourceContainer`, `SharedBuffer` and
`DestinationContainer`, plus both threads' control states. -/
structure SysState (T : Type) where
  src : SourceContainer T
  buf : SharedBuffer T
  dest : DestinationContainer T
  pst : PState T
  cst : CState
deriving DecidableEq, Repr

/-- Interleaving small-step semantics of the system.  Producer steps follow
`Producer.run` (`producer.py` lines 15-41): read a raw value from the
source; if it is `None`, `put(None)` and break, otherwise `put` it and loop.
Consumer steps follow `Consumer.run` (`consumer.py` lines 15-28): `get()`
a value; if it is `None`, break without storing, otherwise store it and
loop.  `put` fires only under its unblocking condition `canPut`; `get`
fires only when the buffer is non-empty (`SharedBuffer.get` returns a
result). -/
inductive Step : SysState T → SysState T → Prop where
  | pread (s : SysState T) (h : s.pst = PState.run) :
      Step s { s with src := s.src.read_next.2, pst := PState.hold s.src.read_next.1 }
  | pput_stop (s : SysState T) (h : s.pst = PState.hold none) (hc : s.buf.canPut) :
      Step s { s with buf := s.buf.put none, pst := PState.done }
  | pput_item (s : SysState T) (x : T) (h : s.pst = PState.hold (some x))
      (hc : s.buf.canPut) :
      Step s { s with buf := s.buf.put (some x), pst := PState.run }
  | cget_stop (s : SysState T) (b' : SharedBuffer T) (h : s.cst = CState.run)
      (hg : s.buf.get = some (none, b')) :
      Step s { s with buf := b', cst := CState.done }
  | cget_item (s : SysState T) (x : T) (b' : SharedBuffer T) (h : s.cst = CState.run)
      (hg : s.buf.get = some (some x, b')) :
      Step s { s with buf := b', dest := s.dest.store (some x) }

/-- Zero or more interleaved steps. -/
def Reaches (s s' : SysState T) : Prop :=
  Relation.ReflTransGen Step s s'

/-- Initial system state: a source holding the raw values `vs`, a buffer
freshly constructed with capacity `cap`, an empty destination, both
threads at the top of their loops. -/
def initSys (vs : List (Option T)) (cap : Int) : SysState T :=
  { src := { items := vs }
    buf := { max_size := cap, buffer := [] }
    dest := { items := [] }
    pst := PState.run
    cst := CState.run }

/-- The kind of exception raised inside the producer's loop body:
`attrError` is Python's `AttributeError` (caught by the first `except`
clause of `Producer.run`, which re-raises without enqueueing anything),
`otherError` is any other `Exception` (caught by the second clause, which
enqueues `None` and then re-raises). -/
inductive FaultKind where
  | attrError
  | otherError
deriving DecidableEq, Repr

/-- One observable outcome of an iteration's `self.source.read_next()`
call: either it returns a raw value, or it raises an exception of the
given kind. -/
inductive PEvent (T : Type) where
  | item (v : Option T)
  | fault (k : FaultKind)
deriving DecidableEq, Repr

/-- `Producer.run` over a stream of read outcomes: the first component is
the sequence of values passed to `buffer.put`, the second is the kind of
exception propagating out of the loop (`Option.none` for the normal path).
An empty stream means the source is exhausted, so `read_next` returns
`None`.  Mirrors `producer.py` lines 17-37: a raw `None` value puts the
poison pill and breaks; an `AttributeError` re-raises with no put; any
other `Exception` puts the poison pill and re-raises. -/
def producerRunEv : List (PEvent T) → List (Option T) × Option FaultKind
  | [] => ([none], Option.none)
  | PEvent.item none :: _ => ([none], Option.none)
  | PEvent.item (some x) :: rest =>
      let r := producerRunEv rest
      (some x :: r.1, r.2)
  | PEvent.fault FaultKind.attrError :: _ => ([], some FaultKind.attrError)
  | PEvent.fault FaultKind.otherError :: _ => ([none], some FaultKind.otherError)

/-- Conservation invariant for a run started from a source of ordinary
items `L` (no raw `None` payloads): at every instant the destination, the
buffer, the producer's in-hand value and the remaining source together
partition `L` in order, the poison pill appears in the buffer only after
the producer is done (and then only at the tail), and the consumer is done
only after the producer is done and the buffer drained. -/
def C1Inv (L : List T) (s : SysState T) : Prop :=
  match s.pst, s.cst with
  | PState.run, CState.run =>
      ∃ ds bs ss, s.dest.items = ds.map some ∧ s.buf.buffer = bs.map some ∧
        s.src.items = ss.map some ∧ ds ++ bs ++ ss = L
  | PState.hold (some x), CState.run =>
      ∃ ds bs ss, s.dest.items = ds.map some ∧ s.buf.buffer = bs.map some ∧
        s.src.items = ss.map some ∧ ds ++ bs ++ x :: ss = L
  | PState.hold none, CState.run =>
      ∃ ds bs, s.dest.items = ds.map some ∧ s.buf.buffer = bs.map some ∧
        s.src.items = [] ∧ ds ++ bs = L
  | PState.done, CState.run =>
      ∃ ds bs, s.dest.items = ds.map some ∧
        s.buf.buffer = bs.map some ++ [none] ∧
        s.src.items = [] ∧ ds ++ bs = L
  | PState.done, CState.done =>
      s.dest.items = L.map some ∧ s.buf.buffer = [] ∧ s.src.items = []
  | _, CState.done => False

/-- Iterated `SharedBuffer.put`: the buffer after a producer has completed
the puts of all values in `xs`, in order. -/
def putAll (b : SharedBuffer T) : List (Option T) → SharedBuffer T
  | [] => b
  | x :: xs => putAll (b.put x) xs

/-- Iterated `SharedBuffer.get`: the values returned by `n` consecutive
completed `get` calls (stopping early if a call would block). -/
def getN (b : SharedBuffer T) : Nat → List (Option T)
  | 0 => []
  | n + 1 =>
    match b.get with
    | none => []
    | some (x, b') => x :: getN b' n

theorem C1Inv_init (L : List T) (cap : Int) : C1Inv L (initSys (L.map some) cap) :=
  ⟨[], [], L, rfl, rfl, rfl, rfl⟩

theorem C1Inv_preserved (L : List T) (s s' : SysState T)
    (hst : Step s s') (hs : C1Inv L s) : C1Inv L s' := by
  obtain ⟨⟨si⟩, ⟨ms, bb⟩, ⟨di⟩, pst, cst⟩ := s
  cases hst with
  | pread h =>
      replace h : pst = PState.run := h
      subst h
      cases cst with
      | done => exact False.elim hs
      | run =>
          obtain ⟨ds, bs, ss, hds, hbs, hss, heq⟩ := hs
          replace hss : si = List.map some ss := hss
          subst hss
          cases ss with
          | nil => exact ⟨ds, bs, hds, hbs, rfl, by simpa using heq⟩
          | cons y ss' => exact ⟨ds, bs, ss', hds, hbs, rfl, heq⟩
  | pput_stop h hc =>
      replace h : pst = PState.hold none := h
      subst h
      cases cst with
      | done => exact False.elim hs
      | run =>
          obtain ⟨ds, bs, hds, hbs, hss, heq⟩ := hs
          replace hbs : bb = List.map some bs := hbs
          subst hbs
          exact ⟨ds, bs, hds, rfl, hss, heq⟩
  | pput_item x h hc =>
      replace h : pst = PState.hold (some x) := h
      subst h
      cases cst with
      | done => exact False.elim hs
      | run =>
          obtain ⟨ds, bs, ss, hds, hbs, hss, heq⟩ := hs
          replace hbs : bb = List.map some bs := hbs
          subst hbs
          refine ⟨ds, bs ++ [x], ss, hds, ?_, hss, ?_⟩
          · show List.map some bs ++ [some x] = List.map some (bs ++ [x])
            simp
          · show ds ++ (bs ++ [x]) ++ ss = L
            simpa [List.append_assoc] using heq
  | cget_stop b' h hg =>
      replace h : cst = CState.run := h
      subst h
      cases bb with
      | nil => exact Option.noConfusion hg
      | cons v rest =>
          replace hg : some (v, ({ max_size := ms, buffer := rest } : SharedBuffer T)) =
              some (none, b') := hg
          simp only [Option.some.injEq, Prod.mk.injEq] at hg
          obtain ⟨hv, hb'⟩ := hg
          subst hv
          subst hb'
          cases pst with
          | run =>
              obtain ⟨ds, bs, ss, hds, hbs, hss, heq⟩ := hs
              replace hbs : (none : Option T) :: rest = List.map some bs := hbs
              cases bs with
              | nil => exact List.noConfusion hbs
              | cons b bs' =>
                  injection hbs with h1 h2
                  exact Option.noConfusion h1
          | hold v' =>
              cases v' with
              | none =>
                  obtain ⟨ds, bs, hds, hbs, hss, heq⟩ := hs
                  replace hbs : (none : Option T) :: rest = List.map some bs := hbs
                  cases bs with
                  | nil => exact List.noConfusion hbs
                  | cons b bs' =>
                      injection hbs with h1 h2
                      exact Option.noConfusion h1
              | some y =>
                  obtain ⟨ds, bs, ss, hds, hbs, hss, heq⟩ := hs
                  replace hbs : (none : Option T) :: rest = List.map some bs := hbs
                  cases bs with
                  | nil => exact List.noConfusion hbs
                  | cons b bs' =>
                      injection hbs with h1 h2
                      exact Option.noConfusion h1
          | done =>
              obtain ⟨ds, bs, hds, hbs, hss, heq⟩ := hs
              replace hbs : (none : Option T) :: rest =
                  List.map some bs ++ [none] := hbs
              cases bs with
              | nil =>
                  injection hbs with h1 h2
                  subst h2
                  refine ⟨?_, rfl, hss⟩
                  replace hds : di = List.map some ds := hds
                  have hdl : ds = L := by simpa using heq
                  rw [hds, hdl]
              | cons b bs' =>
                  injection hbs with h1 h2
                  exact Option.noConfusion h1
  | cget_item x b' h hg =>
      replace h : cst = CState.run := h
      subst h
      cases bb with
      | nil => exact Option.noConfusion hg
      | cons v rest =>
          replace hg : some (v, ({ max_size := ms, buffer := rest } : SharedBuffer T)) =
              some (some x, b') := hg
          simp only [Option.some.injEq, Prod.mk.injEq] at hg
          obtain ⟨hv, hb'⟩ := hg
          subst hv
          subst hb'
          cases pst with
          | run =>
              obtain ⟨ds, bs, ss, hds, hbs, hss, heq⟩ := hs
              replace hbs : (some x : Option T) :: rest = List.map some bs := hbs
              replace hds : di = List.map some ds := hds
              cases bs with
              | nil => exact List.noConfusion hbs
              | cons b bs' =>
                  injection hbs with h1 h2
                  injection h1 with h1
                  subst h1
                  refine ⟨ds ++ [x], bs', ss, ?_, h2.symm ▸ rfl, hss, ?_⟩
                  · show di ++ [some x] = List.map some (ds ++ [x])
                    simp [hds]
                  · show (ds ++ [x]) ++ bs' ++ ss = L
                    simpa [List.append_assoc] using heq
          | hold v' =>
              cases v' with
              | none =>
                  obtain ⟨ds, bs, hds, hbs, hss, heq⟩ := hs
                  replace hbs : (some x : Option T) :: rest = List.map some bs := hbs
                  replace hds : di = List.map some ds := hds
                  cases bs with
                  | nil => exact List.noConfusion hbs
                  | cons b bs' =>
                      injection hbs with h1 h2
                      injection h1 with h1
                      subst h1
                      refine ⟨ds ++ [x], bs', ?_, h2.symm ▸ rfl, hss, ?_⟩
                      · show di ++ [some x] = List.map some (ds ++ [x])
                        simp [hds]
                      · show (ds ++ [x]) ++ bs' = L
                        simpa [List.append_assoc] using heq
              | some y =>
                  obtain ⟨ds, bs, ss, hds, hbs, hss, heq⟩ := hs
                  replace hbs : (some x : Option T) :: rest = List.map some bs := hbs
                  replace hds : di = List.map some ds := hds
                  cases bs with
                  | nil => exact List.noConfusion hbs
                  | cons b bs' =>
                      injection hbs with h1 h2
                      injection h1 with h1
                      subst h1
                      refine ⟨ds ++ [x], bs', ss, ?_, h2.symm ▸ rfl, hss, ?_⟩
                      · show di ++ [some x] = List.map some (ds ++ [x])
                        simp [hds]
                      · show (ds ++ [x]) ++ bs' ++ y :: ss = L
                        simpa [List.append_assoc] using heq
          | done =>
              obtain ⟨ds, bs, hds, hbs, hss, heq⟩ := hs
              replace hbs : (some x : Option T) :: rest =
                  List.map some bs ++ [none] := hbs
              replace hds : di = List.map some ds := hds
              cases bs with
              | nil => simp at hbs
              | cons b bs' =>
                  injection hbs with h1 h2
                  injection h1 with h1
                  subst h1
                  refine ⟨ds ++ [x], bs', ?_, h2.symm ▸ rfl, hss, ?_⟩
                  · show di ++ [some x] = List.map some (ds ++ [x])
                    simp [hds]
                  · show (ds ++ [x]) ++ bs' = L
                    simpa [List.append_assoc] using heq

theorem C1Inv_reaches (L : List T) (cap : Int) (s : SysState T)
    (hr : Reaches (initSys (L.map some) cap) s) : C1Inv L s := by
  induction hr with
  | refl => exact C1Inv_init L cap
  | tail _ hstep ih => exact C1Inv_preserved L _ _ hstep ih

theorem putAll_eq (xs : List (Option T)) : ∀ (ms : Int) (l : List (Option T)),
    putAll { max_size := ms, buffer := l } xs = { max_size := ms, buffer := l ++ xs } := by
  induction xs with
  | nil => intro ms l; simp [putAll]
  | cons x xs ih =>
      intro ms l
      show putAll { max_size := ms, buffer := l ++ [x] } xs = _
      rw [ih]
      simp

theorem getN_all (l : List (Option T)) : ∀ (ms : Int),
    getN { max_size := ms, buffer := l } l.length = l := by
  induction l with
  | nil => intro ms; rfl
  | cons x xs ih =>
      intro ms
      show x :: getN { max_size := ms, buffer := xs } xs.length = x :: xs
      rw [ih]

/-- C2: for every buffer state with room (`canPut`), a completed `put`
appends the item at the tail, leaving the queued items unchanged in order;
for every non-empty buffer state, a completed `get` removes and returns the
head; consequently values come out of the buffer in exactly the order they
were put in (FIFO): putting `xs` into a fresh buffer of sufficient capacity
and then getting `xs.length` times returns exactly `xs`. -/
theorem sharedBuffer_fifo (b : SharedBuffer T) (v : Option T) :
    (b.canPut → (b.put v).buffer = b.buffer ++ [v]) ∧
    (∀ x rest, b.buffer = x :: rest →
      b.get = some (x, { max_size := b.max_size, buffer := rest })) ∧
    (∀ (cap : Int) (xs : List (Option T)), (xs.length : Int) ≤ cap →
      getN (putAll { max_size := cap, buffer := [] } xs) xs.length = xs) := by
  refine ⟨fun _ => rfl, ?_, ?_⟩
  · intro x rest hb
    obtain ⟨ms, bb⟩ := b
    replace hb : bb = x :: rest := hb
    subst hb
    rfl
  · intro cap xs _
    rw [putAll_eq]
    simpa using getN_all xs cap

/-- C2 witness: concrete instances of all three parts. -/
theorem sharedBuffer_fifo_witness :
    (SharedBuffer.put (⟨2, [some 1]⟩ : SharedBuffer Nat) (some 2)).buffer
        = [some 1, some 2] ∧
    SharedBuffer.get (⟨2, [some 1]⟩ : SharedBuffer Nat) = some (some 1, ⟨2, []⟩) ∧
    getN (putAll (⟨2, []⟩ : SharedBuffer Nat) [some 1, some 2]) 2 = [some 1, some 2] :=
  ⟨(sharedBuffer_fifo (⟨2, [some 1]⟩ : SharedBuffer Nat) (some 2)).1 (by decide),
   (sharedBuffer_fifo (⟨2, [some 1]⟩ : SharedBuffer Nat) (some 2)).2.1 (some 1) [] rfl,
   (sharedBuffer_fifo (⟨2, []⟩ : SharedBuffer Nat) none).2.2 2 [some 1, some 2] (by decide)⟩

/-- C3: for a buffer constructed with capacity at least 1, the invariant
`0 ≤ length ≤ capacity` holds initially and is preserved by every completed
`put` (under its unblocking condition `length < capacity`) and by every
completed `get` (which requires a non-empty buffer). -/
theorem sharedBuffer_capacity_invariant (cap : Int) (hcap : 1 ≤ cap) :
    (∀ b0 : SharedBuffer T, SharedBuffer.new T cap = Except.ok b0 → b0.lenInv) ∧
    (∀ (b : SharedBuffer T) (v : Option T), b.lenInv → b.canPut → (b.put v).lenInv) ∧
    (∀ (b b' : SharedBuffer T) (x : Option T), b.lenInv → b.get = some (x, b') →
      b'.lenInv) := by
  refine ⟨?_, ?_, ?_⟩
  · intro b0 h
    replace h : Except.ok ({ max_size := cap, buffer := [] } : SharedBuffer T)
        = Except.ok b0 := h
    injection h with h
    subst h
    constructor
    · simp
    · simp only [List.length_nil, Nat.cast_zero]
      omega
  · intro b v hinv hput
    obtain ⟨h0, h1⟩ := hinv
    unfold SharedBuffer.canPut at hput
    unfold SharedBuffer.lenInv SharedBuffer.put at *
    simp only [List.length_append, List.length_cons, List.length_nil]
    constructor <;> push_cast <;> omega
  · intro b b' x hinv hget
    obtain ⟨ms, bb⟩ := b
    cases bb with
    | nil => exact Option.noConfusion hget
    | cons y rest =>
        replace hget : some (y, ({ max_size := ms, buffer := rest } : SharedBuffer T))
            = some (x, b') := hget
        simp only [Option.some.injEq, Prod.mk.injEq] at hget
        obtain ⟨hx, hb'⟩ := hget
        subst hb'
        obtain ⟨h0, h1⟩ := hinv
        unfold SharedBuffer.lenInv at *
        simp only [List.length_cons] at h1
        constructor <;> push_cast at * <;> omega

/-- C3 witness: the invariant at construction, after a `put`, and after a
`get`, at capacity 1. -/
theorem sharedBuffer_capacity_invariant_witness :
    SharedBuffer.lenInv (⟨1, []⟩ : SharedBuffer Nat) ∧
    SharedBuffer.lenInv (SharedBuffer.put (⟨1, []⟩ : SharedBuffer Nat) none) ∧
    SharedBuffer.lenInv (⟨1, []⟩ : SharedBuffer Nat) :=
  ⟨(sharedBuffer_capacity_invariant 1 (by decide)).1 ⟨1, []⟩ rfl,
   (sharedBuffer_capacity_invariant 1 (by decide)).2.1 ⟨1, []⟩ none
     ⟨by decide, by decide⟩ (by decide),
   (sharedBuffer_capacity_invariant 1 (by decide)).2.2 ⟨1, [none]⟩ ⟨1, []⟩ none
     ⟨by decide, by decide⟩ rfl⟩

/-- C4 counterexample: constructing a `SharedBuffer` with capacity 0 does
not fail validation; `__init__` returns normally and stores the
non-positive capacity as given. -/
theorem sharedBuffer_new_no_validation_cex :
    SharedBuffer.new Nat 0 = Except.ok { max_size := 0, buffer := [] } := rfl

/-- C4 amended: the constructor accepts every integer capacity, including
zero and negative values, storing it unvalidated; a buffer whose capacity
is less than 1 can then never complete a `put` (its unblocking condition
`length < capacity` is unsatisfiable), so the misconfiguration surfaces as
permanent blocking rather than as a construction-time error. -/
theorem sharedBuffer_new_accepts_any_capacity (ms : Int) :
    SharedBuffer.new T ms = Except.ok { max_size := ms, buffer := [] } ∧
    (ms < 1 → ∀ b : SharedBuffer T, b.max_size = ms → ¬ b.canPut) := by
  refine ⟨rfl, ?_⟩
  intro hms b hb hc
  unfold SharedBuffer.canPut at hc
  rw [hb] at hc
  omega

/-- C4 witness: capacity 0 is accepted, and a capacity-0 buffer can never
complete a `put`. -/
theorem sharedBuffer_new_accepts_any_capacity_witness :
    SharedBuffer.new Nat 0 = Except.ok { max_size := 0, buffer := [] } ∧
    ¬ SharedBuffer.canPut (⟨0, []⟩ : SharedBuffer Nat) :=
  ⟨(sharedBuffer_new_accepts_any_capacity 0).1,
   (sharedBuffer_new_accepts_any_capacity 0).2 (by decide) ⟨0, []⟩ rfl⟩

/-- C5: on the fault-free path, whatever the source contains, the producer
puts the sentinel exactly once, as the last value it ever puts: its
emission sequence is a sentinel-free prefix followed by a single `None`. -/
theorem producer_sentinel_exactly_once [DecidableEq T] (vs : List (Option T)) :
    ∃ pre, producerEmits vs = pre ++ [Option.none] ∧ Option.none ∉ pre ∧
      (producerEmits vs).count Option.none = 1 := by
  induction vs with
  | nil => exact ⟨[], rfl, by simp, by simp [producerEmits]⟩
  | cons v rest ih =>
      cases v with
      | none => exact ⟨[], rfl, by simp, by simp [producerEmits]⟩
      | some x =>
          obtain ⟨pre, hp, hn, hc⟩ := ih
          refine ⟨some x :: pre, ?_, ?_, ?_⟩
          · show some x :: producerEmits rest = _
            rw [hp]
            rfl
          · simp [hn]
          · show (some x :: producerEmits rest).count Option.none = 1
            rw [List.count_cons]
            simp [hc]

theorem dest_no_none_step (s s' : SysState T) (hst : Step s s')
    (h : Option.none ∉ s.dest.items) : Option.none ∉ s'.dest.items := by
  cases hst with
  | pread h' => exact h
  | pput_stop h' hc => exact h
  | pput_item x h' hc => exact h
  | cget_stop b' h' hg => exact h
  | cget_item x b' h' hg =>
      intro hmem
      replace hmem : Option.none ∈ s.dest.items ++ [some x] := hmem
      rcases List.mem_append.mp hmem with h1 | h1
      · exact h h1
      · simp at h1

theorem dest_no_none_reaches (vs : List (Option T)) (cap : Int) (s : SysState T)
    (hr : Reaches (initSys vs cap) s) : Option.none ∉ s.dest.items := by
  induction hr with
  | refl => simp [initSys]
  | tail _ hstep ih => exact dest_no_none_step _ _ hstep ih

/-- C6: in every execution (any raw source contents, any capacity), when a
step leaves the consumer terminated, that step did not store anything, and
the destination never contains the sentinel `None` — neither before nor
after the step. -/
theorem consumer_sentinel_not_stored (vs : List (Option T)) (cap : Int)
    (s s' : SysState T) (hr : Reaches (initSys vs cap) s) (hst : Step s s')
    (hdone : s'.cst = CState.done) :
    s'.dest.items = s.dest.items ∧ Option.none ∉ s.dest.items ∧
    Option.none ∉ s'.dest.items := by
  have hns := dest_no_none_reaches vs cap s hr
  have hns' := dest_no_none_step s s' hst hns
  refine ⟨?_, hns, hns'⟩
  cases hst with
  | pread h' => rfl
  | pput_stop h' hc => rfl
  | pput_item x h' hc => rfl
  | cget_stop b' h' hg => rfl
  | cget_item x b' h' hg =>
      replace hdone : s.cst = CState.done := hdone
      rw [h'] at hdone
      exact CState.noConfusion hdone

/-- C6 witness: with an empty source and capacity 1, after the producer has
put the poison pill, the consumer's terminating `get` leaves the (empty)
destination unchanged and sentinel-free. -/
theorem consumer_sentinel_not_stored_witness :
    (⟨⟨[]⟩, ⟨1, []⟩, ⟨[]⟩, PState.done, CState.done⟩ : SysState Nat).dest.items
      = (⟨⟨[]⟩, ⟨1, [none]⟩, ⟨[]⟩, PState.done, CState.run⟩ : SysState Nat).dest.items ∧
    Option.none ∉
      (⟨⟨[]⟩, ⟨1, [none]⟩, ⟨[]⟩, PState.done, CState.run⟩ : SysState Nat).dest.items ∧
    Option.none ∉
      (⟨⟨[]⟩, ⟨1, []⟩, ⟨[]⟩, PState.done, CState.done⟩ : SysState Nat).dest.items := by
  refine consumer_sentinel_not_stored [] 1 _ _ ?_ ?_ rfl
  · exact Relation.ReflTransGen.head (Step.pread _ rfl)
      (Relation.ReflTransGen.head (Step.pput_stop _ rfl (by decide))
        Relation.ReflTransGen.refl)
  · exact Step.cget_stop _ ⟨1, []⟩ rfl rfl

/-- C7 counterexample: an `AttributeError` raised inside the producer's
loop is caught by the first `except` clause, which re-raises WITHOUT
enqueueing a sentinel: the fault propagates with nothing put into the
buffer. -/
theorem producer_fault_sentinel_cex :
    producerRunEv ([PEvent.fault FaultKind.attrError] : List (PEvent Nat))
      = ([], some FaultKind.attrError) := rfl

/-- C7 amended: for every fault other than `AttributeError` raised inside
the producer's loop, the producer enqueues a sentinel (`None` is the last
value it puts) before the fault propagates out of the loop; an
`AttributeError`, however, propagates without any sentinel having been
enqueued. -/
theorem producer_fault_sentinel (evs : List (PEvent T)) :
    ((producerRunEv evs).2 = some FaultKind.otherError →
      (producerRunEv evs).1.getLast? = some Option.none) ∧
    ((producerRunEv evs).2 = some FaultKind.attrError →
      Option.none ∉ (producerRunEv evs).1) := by
  induction evs with
  | nil =>
      constructor
      · intro h; exact Option.noConfusion h
      · intro h; exact Option.noConfusion h
  | cons e rest ih =>
      cases e with
      | item v =>
          cases v with
          | none =>
              constructor
              · intro h; exact Option.noConfusion h
              · intro h; exact Option.noConfusion h
          | some x =>
              constructor
              · intro h
                replace h : (producerRunEv rest).2 = some FaultKind.otherError := h
                have h1 := ih.1 h
                show (some x :: (producerRunEv rest).1).getLast? = some Option.none
                cases hr : (producerRunEv rest).1 with
                | nil => rw [hr] at h1; exact Option.noConfusion h1
                | cons y ys =>
                    rw [hr] at h1
                    rw [List.getLast?_cons_cons]
                    exact h1
              · intro h
                replace h : (producerRunEv rest).2 = some FaultKind.attrError := h
                have h2 := ih.2 h
                show Option.none ∉ some x :: (producerRunEv rest).1
                simp [h2]
      | fault k =>
          cases k with
          | attrError =>
              constructor
              · intro h
                replace h : some FaultKind.attrError = some FaultKind.otherError := h
                injection h with h
                exact FaultKind.noConfusion h
              · intro h
                show Option.none ∉ ([] : List (Option T))
                simp
          | otherError =>
              constructor
              · intro h; rfl
              · intro h
                replace h : some FaultKind.otherError = some FaultKind.attrError := h
                injection h with h
                exact FaultKind.noConfusion h

/-- C7 witness: a generic fault after one item leaves the sentinel as the
last enqueued value; an `AttributeError` leaves no sentinel at all. -/
theorem producer_fault_sentinel_witness :
    (producerRunEv ([PEvent.item (some 1), PEvent.fault FaultKind.otherError]
        : List (PEvent Nat))).1.getLast? = some Option.none ∧
    Option.none ∉ (producerRunEv ([PEvent.fault FaultKind.attrError]
        : List (PEvent Nat))).1 :=
  ⟨(producer_fault_sentinel _).1 rfl, (producer_fault_sentinel _).2 rfl⟩

/-- C8 counterexample: a `SourceContainer` holding the raw values
`[None, 2]`: the first `read_next` returns `None` — the exhaustion signal,
indistinguishable from a `None` payload — yet the next `read_next` returns
the item `2`, not the exhaustion signal again. -/
theorem read_next_after_signal_cex :
    (SourceContainer.read_next (⟨[none, some 2]⟩ : SourceContainer Nat)).1
      = Option.none ∧
    (SourceContainer.read_next
        (SourceContainer.read_next (⟨[none, some 2]⟩ : SourceContainer Nat)).2).1
      = some 2 :=
  ⟨rfl, rfl⟩

/-- C8 amended: once `read_next` returns the exhaustion signal because the
source is actually exhausted (its deque is empty), exhaustion is permanent
and idempotent: the call returns `None`, leaves the state unchanged (so
every subsequent call again returns `None`), and never raises (the
embedding is total).  A `None` stored as a payload, however, is returned
verbatim and is indistinguishable from the signal, and items after it can
still be returned. -/
theorem read_next_exhaustion_idempotent (s : SourceContainer T)
    (h : s.items = []) : s.read_next = (Option.none, s) := by
  obtain ⟨items⟩ := s
  replace h : items = [] := h
  subst h
  rfl

/-- C8 witness: reading an exhausted source returns the signal and the same
exhausted state. -/
theorem read_next_exhaustion_idempotent_witness :
    SourceContainer.read_next (⟨[]⟩ : SourceContainer Nat)
      = (Option.none, ⟨[]⟩) :=
  read_next_exhaustion_idempotent ⟨[]⟩ rfl

/-- C9 counterexample: the sentinel is the Python value `None`, which a
source may legitimately contain: with raw source contents `[None, 3]`, the
producer treats the `None` payload as the stop signal (it emits only the
sentinel, dropping the `3`), the consumer treats it as the stop signal (it
stores nothing), and `read_next` returns it exactly like the exhaustion
signal. -/
theorem sentinel_collision_cex :
    producerEmits ([none, some 3] : List (Option Nat)) = [none] ∧
    consumerStores ([none, some 3] : List (Option Nat)) = [] ∧
    (SourceContainer.read_next (⟨[none, some 3]⟩ : SourceContainer Nat)).1
      = Option.none :=
  ⟨rfl, rfl, rfl⟩

/-- C9 amended: for every payload value other than `None`, `read_next`
returning it is not the exhaustion signal (the state advances past it), and
neither the producer nor the consumer treats it as the stop signal (the
producer puts it and continues; the consumer stores it and continues); the
value `None` itself, however, collides with the sentinel. -/
theorem non_none_payload_not_stop (x : T) (rest : List (Option T))
    (s : SourceContainer T) (h : s.items = some x :: rest) :
    s.read_next = (some x, ⟨rest⟩) ∧ (some x ≠ (Option.none : Option T)) ∧
    producerEmits (some x :: rest) = some x :: producerEmits rest ∧
    consumerStores (some x :: rest) = some x :: consumerStores rest := by
  obtain ⟨items⟩ := s
  replace h : items = some x :: rest := h
  subst h
  exact ⟨rfl, by simp, rfl, rfl⟩

/-- C9 witness: the payload `5` is read as an item, not as the signal, and
both workers pass it through. -/
theorem non_none_payload_not_stop_witness :
    SourceContainer.read_next (⟨[some 5]⟩ : SourceContainer Nat)
        = (some 5, ⟨[]⟩) ∧
    (some 5 ≠ (Option.none : Option Nat)) ∧
    producerEmits ([some 5] : List (Option Nat))
        = some 5 :: producerEmits ([] : List (Option Nat)) ∧
    consumerStores ([some 5] : List (Option Nat))
        = some 5 :: consumerStores ([] : List (Option Nat)) :=
  non_none_payload_not_stop 5 [] ⟨[some 5]⟩ rfl

/-- C10: `snapshot` and `len` are pure observers: each returns the current
queued items (in FIFO order) respectively their count, and leaves the
buffer state — queued items, their order, and the capacity — completely
unchanged. -/
theorem snapshot_len_pure (b : SharedBuffer T) :
    b.snapshot.2 = b ∧ b.len.2 = b ∧ b.snapshot.1 = b.buffer ∧
    b.len.1 = b.buffer.length :=
  ⟨rfl, rfl, rfl, rfl⟩

/-- C1: for any finite source of ordinary items `L` and any buffer capacity
at least 1, every interleaved execution of one producer and one consumer
that reaches a state where both have terminated leaves the destination's
contents equal to the original source sequence, in order — no item lost, no
item duplicated. -/
theorem pipeline_no_loss_no_duplication (L : List T) (cap : Int) (_hcap : 1 ≤ cap)
    (s : SysState T) (hr : Reaches (initSys (L.map some) cap) s)
    (hp : s.pst = PState.done) (hc : s.cst = CState.done) :
    s.dest.items = L.map some := by
  have hinv := C1Inv_reaches L cap s hr
  obtain ⟨⟨si⟩, ⟨ms, bb⟩, ⟨di⟩, pst, cst⟩ := s
  replace hp : pst = PState.done := hp
  replace hc : cst = CState.done := hc
  subst hp
  subst hc
  exact hinv.1

/-- C1 witness: source `[1]`, capacity 1; an explicit six-step execution
(read, put, read signal, consume, put pill, consume pill) ends with both
threads done and destination `[1]`. -/
theorem pipeline_no_loss_no_duplication_witness :
    (⟨⟨[]⟩, ⟨1, []⟩, ⟨[some 1]⟩, PState.done, CState.done⟩
        : SysState Nat).dest.items = List.map some [1] := by
  refine pipeline_no_loss_no_duplication [1] 1 (by decide) _ ?_ rfl rfl
  exact Relation.ReflTransGen.head (Step.pread _ rfl)
    (Relation.ReflTransGen.head (Step.pput_item _ 1 rfl (by decide))
      (Relation.ReflTransGen.head (Step.pread _ rfl)
        (Relation.ReflTransGen.head (Step.cget_item _ 1 ⟨1, []⟩ rfl rfl)
          (Relation.ReflTransGen.head (Step.pput_stop _ rfl (by decide))
            (Relation.ReflTransGen.head (Step.cget_stop _ ⟨1, []⟩ rfl rfl)
              Relation.ReflTransGen.refl)))))
